import Mathlib

/-!
Verification development for the tis-100-rs repository: a shallow embedding of
the assembly parser (src/instruction.rs, src/parse.rs), the port fabric
(src/port.rs) and the per-node execution engine (src/cpu.rs), together with
theorems settling the specification claims.

Modelling conventions:
* Rust i32 values are modelled as Int together with an explicit two's-complement
  wrap (wrap32) applied wherever the Rust code performs i32 arithmetic.
* Fallible Rust code is modelled with Except (recoverable Err values) and with
  an outer Option whose none represents a panic / assertion failure / abort.
* Rust strings are modelled by their character lists.
-/

set_option maxRecDepth 20000

namespace TIS

/-- Two's-complement wrap of an integer into the i32 range [-2^31, 2^31). -/
def wrap32 (x : Int) : Int := (x + 2 ^ 31) % 2 ^ 32 - 2 ^ 31

/-- Port directions, from src/cpu.rs usage: cpu.rs pattern-matches
instruction::Port::Any and instruction::Port::Last in addition to the four
cardinal directions declared in src/src/instruction.rs (whose copy of the enum
predates the ANY/LAST support that cpu.rs exercises). -/
inductive Port
  | Up
  | Down
  | Left
  | Right
  | Any
  | Last
deriving DecidableEq, Repr

/-- True for the four cardinal directions. -/
def Port.isCardinal : Port → Bool
  | .Up | .Down | .Left | .Right => true
  | _ => false

/-- Jump conditions, from src/instruction.rs. -/
inductive Condition
  | Unconditional
  | Ez
  | Nz
  | Gz
  | Lz
deriving DecidableEq, Repr

/-- Labels (Rust String), modelled as character lists. -/
abbrev Label := List Char

/-- Operands, from src/instruction.rs.  The port constructor is lowercased
because the name Port is taken by the direction type. -/
inductive Operand
  | Lit (i : Int)
  | port (p : Port)
  | ACC
deriving DecidableEq, Repr

/-- Instructions, from src/instruction.rs. -/
inductive Instruction
  | NOP
  | MOV (src : Operand) (dst : Operand)
  | SWP
  | SAV
  | ADD (addend : Operand)
  | SUB (subtrahend : Operand)
  | NEG
  | J (cond : Condition) (dst : Label)
  | JRO (dst : Operand)
deriving DecidableEq, Repr

/-- Decidable equality for Except, needed to evaluate parser results. -/
instance {ε α} [DecidableEq ε] [DecidableEq α] : DecidableEq (Except ε α) := fun a b =>
  match a, b with
  | .ok x, .ok y =>
    if h : x = y then .isTrue (by simp [h]) else .isFalse (by simp [h])
  | .error x, .error y =>
    if h : x = y then .isTrue (by simp [h]) else .isFalse (by simp [h])
  | .ok _, .error _ => .isFalse (by simp)
  | .error _, .ok _ => .isFalse (by simp)

def BAD_OPCODE_ERR : String := "Bad opcode for # of arguments"
def NUM_ARGS_ERR : String := "Wrong number of arguments"
def LIT_DST_ERR : String := "Literal not allowed as dst operand"

/-- ASCII decimal digit test. -/
def isDigit (c : Char) : Bool := '0' ≤ c && c ≤ '9'

/-- Numeric value of a list of ASCII digits, most significant first. -/
def natOfDigits (ds : List Char) : Nat :=
  ds.foldl (fun acc c => acc * 10 + (c.toNat - '0'.toNat)) 0

/-- Rust i32::from_str: optional sign, at least one digit, value must fit in
i32; anything else is a parse error (modelled as none). -/
def parseI32 (s : List Char) : Option Int :=
  match s with
  | [] => none
  | c :: rest =>
    let signed : Bool × List Char :=
      if c = '-' then (true, rest) else if c = '+' then (false, rest) else (false, s)
    let ds := signed.2
    if ds = [] then none
    else if !ds.all isDigit then none
    else
      let v : Int := if signed.1 then -(natOfDigits ds : Int) else (natOfDigits ds : Int)
      if -2 ^ 31 ≤ v ∧ v ≤ 2 ^ 31 - 1 then some v else none

/-- Port::from_str from src/src/instruction.rs: only the four cardinal names
are recognized; ANY and LAST are not (the file predates them). -/
def Port.from_str (s : List Char) : Except String Port :=
  if s = "UP".data then .ok Port.Up
  else if s = "DOWN".data then .ok Port.Down
  else if s = "LEFT".data then .ok Port.Left
  else if s = "RIGHT".data then .ok Port.Right
  else .error "bad port"

/-- Operand::from_str from src/src/instruction.rs: ACC, then a signed i32
literal, then a port name, otherwise the invalid-operand error. -/
def Operand.from_str (s : List Char) : Except String Operand :=
  if s = "ACC".data then .ok Operand.ACC
  else
    match parseI32 s with
    | some i => .ok (Operand.Lit i)
    | none =>
      match Port.from_str s with
      | .ok p => .ok (Operand.port p)
      | .error _ => .error "Invalid operand"

/-- Split a character list on a separator character (Rust str::split(sep)):
every separator occurrence delimits a (possibly empty) chunk. -/
def splitOnChar (sep : Char) (l : List Char) : List (List Char) :=
  match l with
  | [] => [[]]
  | c :: rest =>
    let r := splitOnChar sep rest
    if c = sep then [] :: r
    else
      match r with
      | [] => [[c]]
      | h :: t => (c :: h) :: t

/-- Instruction::from_str from src/src/instruction.rs: split on spaces, drop
empty words, then dispatch on the word count and the opcode. -/
def Instruction.from_str (insn : List Char) : Except String Instruction :=
  let words := (splitOnChar ' ' insn).filter (fun w => w ≠ [])
  match words with
  | [w0] =>
    if w0 = "NOP".data then .ok Instruction.NOP
    else if w0 = "SWP".data then .ok Instruction.SWP
    else if w0 = "SAV".data then .ok Instruction.SAV
    else if w0 = "NEG".data then .ok Instruction.NEG
    else .error BAD_OPCODE_ERR
  | [w0, w1] =>
    if w0 = "ADD".data then (Operand.from_str w1).map (fun o => Instruction.ADD o)
    else if w0 = "SUB".data then (Operand.from_str w1).map (fun o => Instruction.SUB o)
    else if w0 = "JMP".data then .ok (Instruction.J Condition.Unconditional w1)
    else if w0 = "JEZ".data then .ok (Instruction.J Condition.Ez w1)
    else if w0 = "JNZ".data then .ok (Instruction.J Condition.Nz w1)
    else if w0 = "JGZ".data then .ok (Instruction.J Condition.Gz w1)
    else if w0 = "JLZ".data then .ok (Instruction.J Condition.Lz w1)
    else if w0 = "JRO".data then (Operand.from_str w1).map (fun o => Instruction.JRO o)
    else .error BAD_OPCODE_ERR
  | [w0, w1, w2] =>
    if w0 = "MOV".data then
      (Operand.from_str w1).bind (fun s =>
        (Operand.from_str w2).bind (fun d =>
          match d with
          | Operand.Lit _ => .error LIT_DST_ERR
          | _ => .ok (Instruction.MOV s d)))
    else .error BAD_OPCODE_ERR
  | _ => .error NUM_ARGS_ERR

/-- A parsed source line: optional label, optional instruction
(src/parse.rs struct Line). -/
structure Line where
  label : Option Label
  insn : Option Instruction
deriving DecidableEq, Repr

/-- Whitespace for the line regex (regex \s on the ASCII program text). -/
def isWs (c : Char) : Bool := c = ' ' || c = '\t' || c = '\r' || c = '\n' || c = '\x0b' || c = '\x0c'

/-- Rust char::to_ascii_uppercase. -/
def asciiUpper (c : Char) : Char :=
  if 'a' ≤ c && c ≤ 'z' then Char.ofNat (c.toNat - 32) else c

/-- The index of the last colon in a token that has at least one non-colon
character before it: the label regex (\S+): greedily matches the longest
whitespace-free prefix that is followed by a colon. -/
def lastColonIdx (tok : List Char) : Option Nat :=
  (((List.range tok.length).filter
      (fun k => decide (1 ≤ k) && decide (tok.get? k = some ':'))).reverse).head?

/-- Line::from_str from src/parse.rs: uppercase the line, then match the
line pattern (whitespace)* ((label)(colon))? (whitespace)* (insn-to-end-of-line)?
where label is the longest whitespace-free prefix followed by a colon and the
instruction text runs to the end of the line. -/
def Line.from_str (line : List Char) : Except String Line :=
  let cs := line.map asciiUpper
  let cs1 := cs.dropWhile isWs
  let tok := cs1.takeWhile (fun c => !isWs c)
  let labelRest : Option Label × List Char :=
    match lastColonIdx tok with
    | some k => (some (tok.take k), cs1.drop (k + 1))
    | none => (none, cs1)
  let insnStr := labelRest.2.dropWhile isWs
  if insnStr = [] then .ok { label := labelRest.1, insn := none }
  else (Instruction.from_str insnStr).map (fun i => { label := labelRest.1, insn := some i })

/-- Rust str::lines(): split on newline, dropping one trailing empty chunk
produced by a terminating newline. -/
def rustLines (p : List Char) : List (List Char) :=
  match p with
  | [] => []
  | _ =>
    let parts := splitOnChar '\n' p
    let parts := if parts.getLast? = some [] then parts.dropLast else parts
    parts.map (fun l => if l.getLast? = some '\r' then l.dropLast else l)

/-- parse_program from src/parse.rs: parse each line, propagating the first
error. -/
def parse_program (p : List Char) : Except String (List Line) :=
  (rustLines p).mapM Line.from_str

/-- An instruction together with its 0-based source line (src/parse.rs). -/
structure InstructionLine where
  insn : Instruction
  srcline : Nat
deriving DecidableEq, Repr

/-- The parse output (src/parse.rs struct Executable).  The HashMap of labels
is modelled as an association list whose insert replaces an existing key. -/
structure Executable where
  lines : List InstructionLine
  labels : List (Label × Nat)
deriving DecidableEq, Repr

/-- HashMap::insert on the association-list model: replace the binding if the
key is present, otherwise append it. -/
def insertAssoc (m : List (Label × Nat)) (k : Label) (v : Nat) : List (Label × Nat) :=
  if m.any (fun kv => kv.1 = k) then
    m.map (fun kv => if kv.1 = k then (k, v) else kv)
  else m ++ [(k, v)]

/-- First pass of parse: emit the instruction list annotated with source lines
and record each label at its source-line number (src/parse.rs lines 87-96). -/
def rawPairs (lines : List Line) : List InstructionLine × List (Label × Nat) :=
  (lines.enum.foldl
    (fun acc li =>
      let acc2 := match li.2.insn with
        | some insn => (acc.1 ++ [{ insn := insn, srcline := li.1 }], acc.2)
        | none => acc
      match li.2.label with
      | some label => (acc2.1, insertAssoc acc2.2 label li.1)
      | none => acc2)
    ([], []))

/-- Second pass of parse: a recorded label is resolved to the index of the
first instruction whose source line is at or after the label's line
(src/parse.rs lines 100-111); no such instruction fires the assert (none). -/
def resolveLabel (lines : List InstructionLine) (lineno : Nat) : Option Nat :=
  match lines with
  | [] => none
  | il :: rest =>
    if lineno ≤ il.srcline then some 0
    else (resolveLabel rest lineno).map (fun i => i + 1)

/-- Build an Executable out of parsed lines: the two passes above, the
assert_eq length guards, and the jump-target check of src/parse.rs lines
113-120.  none models a panic (a failed assert), a returned Except.error
models an Err. -/
def buildExecutable (lines : List Line) : Option (Except String Executable) :=
  let validlines := (lines.filter (fun l => l.insn ≠ none)).length
  let numlabels := (lines.filter (fun l => l.label ≠ none)).length
  let raw := rawPairs lines
  if raw.1.length = validlines ∧ raw.2.length = numlabels then
    match raw.2.mapM (fun kv => (resolveLabel raw.1 kv.2).map (fun i => (kv.1, i))) with
    | none => none
    | some labels =>
      if raw.1.any (fun il =>
          match il.insn with
          | Instruction.J _ dst => !labels.any (fun kv => kv.1 = dst)
          | _ => false) then
        some (.error "Jump to undefined label")
      else
        some (.ok { lines := raw.1, labels := labels })
  else none

/-- parse from src/parse.rs: outer none is a panic, inner Except the returned
result. -/
def parse (p : List Char) : Option (Except String Executable) :=
  match parse_program p with
  | .error e => some (.error e)
  | .ok lines => buildExecutable lines

/-- The four write-side slots of a node (src/port.rs struct CpuWritePorts),
each a one-cell mailbox.  The field last is modelled from the spec: cpu.rs
calls outports.get_last() (the direction consumed most recently, per spec
section 4.3) but the copy of port.rs under src predates that tracking. -/
structure CpuWritePorts where
  up : Option Int
  down : Option Int
  left : Option Int
  right : Option Int
  last : Port
deriving DecidableEq, Repr

/-- CpuWritePorts::new (Default): all slots empty; last starts at UP per the
spec (the fabric initializes last to UP). -/
def CpuWritePorts.new : CpuWritePorts :=
  { up := none, down := none, left := none, right := none, last := Port.Up }

/-- get_port from src/port.rs: select a slot by direction; ANY or LAST
panics (none). -/
def CpuWritePorts.get_port (w : CpuWritePorts) : Port → Option (Option Int)
  | Port.Up => some w.up
  | Port.Down => some w.down
  | Port.Left => some w.left
  | Port.Right => some w.right
  | _ => none

/-- set_all from src/port.rs: store the same value in all four slots. -/
def CpuWritePorts.set_all (w : CpuWritePorts) (val : Option Int) : CpuWritePorts :=
  { w with up := val, down := val, left := val, right := val }

/-- Overwrite one cardinal slot. -/
def CpuWritePorts.setSlot (w : CpuWritePorts) (p : Port) (val : Option Int) : CpuWritePorts :=
  match p with
  | Port.Up => { w with up := val }
  | Port.Down => { w with down := val }
  | Port.Left => { w with left := val }
  | Port.Right => { w with right := val }
  | _ => w

/-- read from src/port.rs: return the selected slot; when it is full, clear
all four pending slots.  Outer none models the get_port panic on a
non-cardinal direction.  Recording the consumed direction in last is modelled
from the spec (get_last support missing from the copy of port.rs under src). -/
def CpuWritePorts.read (w : CpuWritePorts) (port : Port) : Option (Option Int × CpuWritePorts) :=
  (w.get_port port).map (fun ret =>
    match ret with
    | some v => (some v, { w.set_all none with last := port })
    | none => (none, w))

/-- write_any_finished from src/port.rs: true iff no slot still holds a value. -/
def CpuWritePorts.write_any_finished (w : CpuWritePorts) : Bool :=
  match (w.up.or (w.down.or (w.left.or w.right))) with
  | some _ => false
  | none => true

/-- Modelled from the spec: write_finished() is called by cpu.rs but missing
from the copy of port.rs under src; per spec section 4.3 it is true iff all
four slots are empty. -/
def CpuWritePorts.write_finished (w : CpuWritePorts) : Bool :=
  w.write_any_finished

/-- Modelled from the spec: get_last() is called by cpu.rs but missing from
the copy of port.rs under src; per spec section 4.3 it is the direction
consumed most recently. -/
def CpuWritePorts.get_last (w : CpuWritePorts) : Port :=
  w.last

/-- write_port from src/port.rs for cardinal directions: store the value if
the slot is empty, report false if it is full.  The ANY branch is modelled
from the spec (set all four slots simultaneously, spec section 4.3): the copy
of port.rs under src predates the ANY port and would panic.  LAST panics
(cpu.rs resolves LAST before calling). -/
def CpuWritePorts.write_port (w : CpuWritePorts) (p : Port) (val : Int) : Option (Bool × CpuWritePorts) :=
  match p with
  | Port.Any => some (true, w.set_all (some val))
  | Port.Last => none
  | _ =>
    (w.get_port p).map (fun slot =>
      match slot with
      | none => (true, w.setSlot p (some val))
      | some _ => (false, w))

/-- The values visible on a node's four read-side handles (src/cpu.rs struct
CpuReadPorts).  Each handle points at a single one-slot mailbox of the
corresponding neighbor; a successful read consumes the slot. -/
structure CpuReadPorts where
  up : Option Int
  down : Option Int
  left : Option Int
  right : Option Int
deriving DecidableEq, Repr

/-- CpuReadPorts::get_port from src/cpu.rs, combined with ReadPort::read:
read the slot of one cardinal direction, consuming it on success; ANY or
LAST panics (none). -/
def CpuReadPorts.read_one (r : CpuReadPorts) : Port → Option (Option Int × CpuReadPorts)
  | Port.Up => some (r.up, { r with up := none })
  | Port.Down => some (r.down, { r with down := none })
  | Port.Left => some (r.left, { r with left := none })
  | Port.Right => some (r.right, { r with right := none })
  | _ => none

/-- read_port from src/cpu.rs lines 47-68: ANY polls UP, DOWN, LEFT, RIGHT in
that order, returns the first full slot and records its direction in last;
LAST reads the remembered direction; a cardinal direction reads its own slot.
Returns (value, updated last, updated ports); none models a panic. -/
def CpuReadPorts.read_port (r : CpuReadPorts) (port : Port) (last : Port) :
    Option (Option Int × Port × CpuReadPorts) :=
  match port with
  | Port.Any =>
    match r.up with
    | some v => some (some v, Port.Up, { r with up := none })
    | none =>
      match r.down with
      | some v => some (some v, Port.Down, { r with down := none })
      | none =>
        match r.left with
        | some v => some (some v, Port.Left, { r with left := none })
        | none =>
          match r.right with
          | some v => some (some v, Port.Right, { r with right := none })
          | none => some (none, last, r)
  | Port.Last => (r.read_one last).map (fun vr => (vr.1, last, vr.2))
  | _ => (r.read_one port).map (fun vr => (vr.1, last, vr.2))

/-- A node's port bundle (src/cpu.rs struct CpuPorts): outgoing slots,
incoming handles, and the consumer-side last direction. -/
structure CpuPorts where
  outports : CpuWritePorts
  inports : CpuReadPorts
  last : Port
deriving DecidableEq, Repr

/-- CpuPorts::read_port from src/cpu.rs: read through the handles, updating
the node's last direction. -/
def CpuPorts.read_port (ps : CpuPorts) (port : Port) : Option (Option Int × CpuPorts) :=
  (ps.inports.read_port port ps.last).map (fun vlr =>
    (vlr.1, { ps with last := vlr.2.1, inports := vlr.2.2 }))

/-- CpuPorts::write_port from src/cpu.rs: LAST resolves to the remembered
direction; the success flag of the underlying write is dropped. -/
def CpuPorts.write_port (ps : CpuPorts) (port : Port) (val : Int) : Option CpuPorts :=
  (ps.outports.write_port (match port with | Port.Last => ps.last | _ => port) val).map
    (fun bw => { ps with outports := bw.2 })

/-- CpuPorts::write_finished from src/cpu.rs: report whether the outgoing
slots are drained; on a finished ANY write, remember the direction the
consumer took. -/
def CpuPorts.write_finished (ps : CpuPorts) (port : Port) : Bool × CpuPorts :=
  let finished := ps.outports.write_finished
  if finished && port = Port.Any then
    (finished, { ps with last := ps.outports.get_last })
  else (finished, ps)

/-- Execution mode (src/cpu.rs enum ExecState). -/
inductive ExecState
  | EXEC
  | READ (p : Port)
  | WRITE (p : Port)
deriving DecidableEq, Repr

/-- Per-node register state (src/cpu.rs struct CpuState). -/
structure CpuState where
  acc : Int
  bak : Int
  pc : Int
  pending_write : Option (Port × Int)
  exec_state : ExecState
deriving DecidableEq, Repr

/-- Default CpuState: zero registers, EXEC mode, no pending write. -/
def CpuState.default : CpuState :=
  { acc := 0, bak := 0, pc := 0, pending_write := none, exec_state := ExecState.EXEC }

/-- Modelled from the spec: Executable::len (only its callers are under src):
the number of instructions. -/
def Executable.len (e : Executable) : Nat := e.lines.length

/-- Modelled from the spec: Executable::insn_at (only its callers are under
src): the instruction at a program-counter index; the argument is the i32 pc
cast to usize, so a negative pc or an index past the end panics (none). -/
def Executable.insn_at (e : Executable) (pc : Int) : Option InstructionLine :=
  if pc < 0 then none else e.lines.get? pc.toNat

/-- Modelled from the spec: Executable::label_line (only its callers are under
src): the instruction index bound to a label; a missing label panics (none). -/
def Executable.label_line (e : Executable) (dst : Label) : Option Nat :=
  (e.labels.find? (fun kv => kv.1 = dst)).map (fun kv => kv.2)

/-- A whole node (src/cpu.rs struct Cpu). -/
structure Cpu where
  state : CpuState
  ports : CpuPorts
  executable : Executable
deriving DecidableEq, Repr

/-- Cpu::new from src/cpu.rs: default state, last direction UP. -/
def Cpu.new (executable : Executable) (write_ports : CpuWritePorts)
    (read_ports : CpuReadPorts) : Cpu :=
  { state := CpuState.default,
    ports := { outports := write_ports, inports := read_ports, last := Port.Up },
    executable := executable }

/-- get_operand from src/cpu.rs: literals and ACC evaluate directly; a port
operand reads through the port bundle and flips exec_state to READ(p) on an
empty slot and back to EXEC on success.  The inner Option Int is the value
(none = blocked); the outer Option models a panic. -/
def get_operand (state : CpuState) (ports : CpuPorts) (op : Operand) :
    Option (Option Int × CpuState × CpuPorts) :=
  match op with
  | Operand.Lit i => some (some i, state, ports)
  | Operand.ACC => some (some state.acc, state, ports)
  | Operand.port p =>
    (ports.read_port p).map (fun vp =>
      let st := { state with exec_state :=
        match vp.1 with
        | none => ExecState.READ p
        | some _ => ExecState.EXEC }
      (vp.1, st, vp.2))

/-- update_pc from src/cpu.rs lines 239-248: optionally advance by one, then
take the remainder by the instruction count (Rust % truncates toward zero)
and normalize a negative remainder by adding the count.  A zero count makes
the Rust remainder panic (none); each i32 operation wraps. -/
def update_pc (len : Int) (advance : Bool) (pc : Int) : Option Int :=
  let pc1 := if advance then wrap32 (pc + 1) else pc
  if len = 0 then none
  else
    let pc2 := wrap32 (Int.tmod pc1 len)
    some (if pc2 < 0 then wrap32 (len + pc2) else pc2)

/-- One dispatch arm of Cpu::execute (src/cpu.rs lines 146-204): returns
whether to advance the pc together with the updated state and ports;
none models a panic (MOV into a literal). -/
def execInsn (insn : Instruction) (s : CpuState) (ps : CpuPorts) (e : Executable) :
    Option (Bool × CpuState × CpuPorts) :=
  match insn with
  | Instruction.NOP => some (true, s, ps)
  | Instruction.MOV src dst =>
    (get_operand s ps src).bind (fun vsp =>
      let v := vsp.1; let s := vsp.2.1; let ps := vsp.2.2
      match v with
      | some i =>
        match dst with
        | Operand.Lit _ => none
        | Operand.ACC => some (true, { s with acc := i }, ps)
        | Operand.port p => some (false, { s with pending_write := some (p, i) }, ps)
      | none => some (false, s, ps))
  | Instruction.SWP => some (true, { s with acc := s.bak, bak := s.acc }, ps)
  | Instruction.SAV => some (true, { s with bak := s.acc }, ps)
  | Instruction.ADD addend =>
    (get_operand s ps addend).map (fun vsp =>
      match vsp.1 with
      | some i => (true, { vsp.2.1 with acc := wrap32 (vsp.2.1.acc + i) }, vsp.2.2)
      | none => (false, vsp.2.1, vsp.2.2))
  | Instruction.SUB subtrahend =>
    (get_operand s ps subtrahend).map (fun vsp =>
      match vsp.1 with
      | some i => (true, { vsp.2.1 with acc := wrap32 (vsp.2.1.acc - i) }, vsp.2.2)
      | none => (false, vsp.2.1, vsp.2.2))
  | Instruction.NEG => some (true, { s with acc := wrap32 (-s.acc) }, ps)
  | Instruction.J cond dst =>
    if (match cond with
        | Condition.Unconditional => true
        | Condition.Ez => s.acc = 0
        | Condition.Nz => s.acc ≠ 0
        | Condition.Gz => s.acc > 0
        | Condition.Lz => s.acc < 0 : Bool) then
      (e.label_line dst).map (fun idx => (false, { s with pc := wrap32 idx }, ps))
    else some (true, s, ps)
  | Instruction.JRO dst =>
    (get_operand s ps dst).map (fun vsp =>
      match vsp.1 with
      | some i => (true, { vsp.2.1 with pc := wrap32 (vsp.2.1.pc + i) }, vsp.2.2)
      | none => (false, vsp.2.1, vsp.2.2))

/-- Cpu::execute from src/cpu.rs lines 134-207: false on an empty executable;
the pending-write assert (none on failure); false without work in WRITE mode;
otherwise dispatch the instruction at pc and normalize the pc. -/
def Cpu.execute (c : Cpu) : Option (Bool × Cpu) :=
  if c.executable.len = 0 then some (false, c)
  else if c.state.pending_write ≠ none then none
  else
    match c.state.exec_state with
    | ExecState.WRITE _ => some (false, c)
    | _ =>
      (c.executable.insn_at c.state.pc).bind (fun il =>
        (execInsn il.insn c.state c.ports c.executable).bind (fun asp =>
          (update_pc (wrap32 c.executable.len) asp.1 asp.2.1.pc).map (fun pc =>
            (true, { c with state := { asp.2.1 with pc := pc }, ports := asp.2.2 }))))

/-- Cpu::write_cycle from src/cpu.rs lines 215-229: deposit a pending write
and enter WRITE mode; otherwise, in WRITE mode, check for a drained slot and
on success return to EXEC and advance the pc. -/
def Cpu.write_cycle (c : Cpu) : Option Cpu :=
  match c.state.pending_write with
  | some (port, val) =>
    (c.ports.write_port port val).map (fun ps =>
      { c with
        state := { c.state with pending_write := none, exec_state := ExecState.WRITE port },
        ports := ps })
  | none =>
    match c.state.exec_state with
    | ExecState.WRITE port =>
      let fp := c.ports.write_finished port
      if fp.1 then
        (update_pc (wrap32 c.executable.len) true c.state.pc).map (fun pc =>
          { c with state := { c.state with exec_state := ExecState.EXEC, pc := pc },
                   ports := fp.2 })
      else some { c with ports := fp.2 }
    | _ => some c

/-- One externally driven call on a node: before each call the environment
may refill the read-side handles (a neighbor produced values) or alter the
write-side slots (a neighbor consumed them). -/
inductive CpuCall
  | execute (inports : CpuReadPorts)
  | write_cycle (outports : CpuWritePorts)

/-- Run one call with its environment injection. -/
def runCall (c : Cpu) : CpuCall → Option Cpu
  | CpuCall.execute inports =>
    (Cpu.execute { c with ports := { c.ports with inports := inports } }).map
      (fun bc => bc.2)
  | CpuCall.write_cycle outports =>
    { c with ports := { c.ports with outports := outports } }.write_cycle

/-- Run a sequence of calls. -/
def runCalls (c : Cpu) : List CpuCall → Option Cpu
  | [] => some c
  | call :: rest => (runCall c call).bind (fun c2 => runCalls c2 rest)

end TIS

section fixtures
open TIS
/-- All-empty read handles (the dummy ports of the cpu.rs tests). -/
def emptyR : CpuReadPorts := ⟨none, none, none, none⟩
/-- Two NOPs (the test_cpu_wrapping program). -/
def e2nop : Executable := ⟨[⟨.NOP, 0⟩, ⟨.NOP, 1⟩], []⟩
/-- A node running two NOPs. -/
def cW : Cpu := Cpu.new e2nop CpuWritePorts.new emptyR
/-- A node running MOV 10 DOWN then NOP. -/
def cMov : Cpu := Cpu.new ⟨[⟨.MOV (.Lit 10) (.port .Down), 0⟩, ⟨.NOP, 1⟩], []⟩
    CpuWritePorts.new emptyR
/-- A node with an empty executable. -/
def c1empty : Cpu := Cpu.new ⟨[], []⟩ CpuWritePorts.new emptyR
/-- A node running JRO 0 then NOP. -/
def c2jro : Cpu := Cpu.new ⟨[⟨.JRO (.Lit 0), 0⟩, ⟨.NOP, 1⟩], []⟩ CpuWritePorts.new emptyR
/-- The node state after one execute call on the two-NOP program. -/
def c5res : Cpu := (runCalls (Cpu.new e2nop CpuWritePorts.new emptyR)
    [CpuCall.execute emptyR]).getD (Cpu.new e2nop CpuWritePorts.new emptyR)
/-- A node at ADD 1 with the accumulator at i32 max. -/
def c4fix : Cpu := { Cpu.new ⟨[⟨.ADD (.Lit 1), 0⟩], []⟩ CpuWritePorts.new emptyR with
  state := { CpuState.default with acc := 2147483647 } }
/-- A node running MOV 7 ACC. -/
def c7acc : Cpu := Cpu.new ⟨[⟨.MOV (.Lit 7) Operand.ACC, 0⟩, ⟨.NOP, 1⟩], []⟩
    CpuWritePorts.new emptyR
/-- A node running MOV 7 DOWN. -/
def c7port : Cpu := Cpu.new ⟨[⟨.MOV (.Lit 7) (.port .Down), 0⟩, ⟨.NOP, 1⟩], []⟩
    CpuWritePorts.new emptyR
/-- The MOV 10 DOWN node right after execute(): the write is pending. -/
def c8mid : Cpu := ((cMov.execute).map (fun bc => bc.2)).getD cMov
/-- The same node after write_cycle() deposited the value. -/
def c8w : Cpu := (c8mid.write_cycle).getD cMov
/-- The same node after a consumer drained all its outgoing slots. -/
def c8d : Cpu := { c8w with ports := { c8w.ports with outports := CpuWritePorts.new } }
end fixtures

-- sanity checks: the embedding reproduces the repository test vectors
example : TIS.Instruction.from_str "NOP".data = .ok TIS.Instruction.NOP := by decide
example : TIS.Instruction.from_str "ADD 10".data = .ok (TIS.Instruction.ADD (.Lit 10)) := by decide
example : TIS.Instruction.from_str "MOV  UP  DOWN".data
    = .ok (TIS.Instruction.MOV (.port .Up) (.port .Down)) := by decide
example : TIS.Instruction.from_str "MOV UP 10".data = .error TIS.LIT_DST_ERR := by decide
example : TIS.Operand.from_str "ANY".data = .error "Invalid operand" := by decide
example : TIS.Operand.from_str "-32".data = .ok (.Lit (-32)) := by decide
example : TIS.parseI32 "2147483648".data = none := by decide
example : TIS.parseI32 "-2147483648".data = some (-2147483648) := by decide
example : TIS.Instruction.from_str "1 2 3 4".data = .error TIS.NUM_ARGS_ERR := by decide
example : TIS.Line.from_str "foo: NOP".data
    = .ok { label := some "FOO".data, insn := some .NOP } := by decide
example : TIS.Line.from_str "foo:: NOP".data
    = .ok { label := some "FOO:".data, insn := some .NOP } := by decide
example : TIS.Line.from_str " NOP ".data = .ok { label := none, insn := some .NOP } := by decide
example : TIS.Line.from_str "".data = .ok { label := none, insn := none } := by decide
example : TIS.Line.from_str "SUB b c".data = .error TIS.BAD_OPCODE_ERR := by decide
example : TIS.Line.from_str "a b c d".data = .error TIS.NUM_ARGS_ERR := by decide
example : TIS.parse "TOP: NOP\nNOP".data
    = some (.ok { lines := [⟨.NOP, 0⟩, ⟨.NOP, 1⟩], labels := [("TOP".data, 0)] }) := by decide
example : TIS.parse "TOP:\nNOP\nJMP TOP".data
    = some (.ok { lines := [⟨.NOP, 1⟩, ⟨.J .Unconditional "TOP".data, 2⟩],
                  labels := [("TOP".data, 0)] }) := by decide
example : TIS.parse "JMP NOWHERE\nNOP".data = some (.error "Jump to undefined label") := by decide
example : TIS.parse "FOO:".data = none := by decide
example : TIS.parse "JMP FOO\nFOO:".data = none := by decide
example : TIS.parse "MOV 10 ANY".data = some (.error "Invalid operand") := by decide

section sanity
open TIS
-- pc wrapping across NOPs
example : (cW.execute).map (fun bc => (bc.1, bc.2.state.pc)) = some (true, 1) := by decide
example : ((cW.execute).bind (fun bc => bc.2.execute)).map (fun bc => bc.2.state.pc)
    = some 0 := by decide
-- ADD wraps at i32 max
example : (Cpu.execute { cW with
    executable := ⟨[⟨.ADD (.Lit 1), 0⟩], []⟩,
    state := { CpuState.default with acc := 2147483647 } }).map (fun bc => bc.2.state.acc)
    = some (-2147483648) := by decide
-- JRO 0 at pc 0: the code advances pc to 1 (auto-advance after the offset)
example : (Cpu.execute { cW with executable := ⟨[⟨.JRO (.Lit 0), 0⟩, ⟨.NOP, 1⟩], []⟩ }).map
    (fun bc => bc.2.state.pc) = some 1 := by decide
-- MOV 10 DOWN: pending write in execute, deposited at write_cycle, blocked after
example : (cMov.execute).map (fun bc =>
    (bc.1, bc.2.state.pending_write, bc.2.state.pc, bc.2.ports.outports.down))
    = some (true, some (.Down, 10), 0, none) := by decide
example : ((cMov.execute).bind (fun bc => bc.2.write_cycle)).map (fun c =>
    (c.state.exec_state, c.ports.outports.down, c.state.pc))
    = some (.WRITE .Down, some 10, 0) := by decide
example : (((cMov.execute).bind (fun bc => bc.2.write_cycle)).bind (fun c => c.execute)).map
    (fun bc => bc.1) = some false := by decide
-- drained write: mode back to EXEC, pc advances
example : ((((cMov.execute).bind (fun bc => bc.2.write_cycle)).bind (fun c =>
    Cpu.write_cycle { c with ports := { c.ports with outports := CpuWritePorts.new } })).map
    (fun c => (c.state.exec_state, c.state.pc))) = some (.EXEC, 1) := by decide
-- ANY read probes in order and records last
example : CpuReadPorts.read_port ⟨none, some 5, none, some 7⟩ .Any .Up
    = some (some 5, .Down, ⟨none, none, none, some 7⟩) := by decide
example : CpuReadPorts.read_port ⟨none, none, none, none⟩ .Any .Left
    = some (none, .Left, ⟨none, none, none, none⟩) := by decide
end sanity

namespace TIS

/-! ### Helper lemmas -/

theorem wrap32_eq_self {x : Int} (h1 : -2 ^ 31 ≤ x) (h2 : x < 2 ^ 31) : wrap32 x = x := by
  unfold wrap32; omega

theorem tmod_lower (a b : Int) (h : 0 < b) : -b < Int.tmod a b := by
  rcases a with m | m <;> rcases b with n | n
  · have := Int.tmod_nonneg (a := Int.ofNat m) (Int.ofNat n) (Int.ofNat_nonneg m)
    omega
  · exact absurd h (Int.not_lt.mpr (Int.le_of_lt (Int.negSucc_lt_zero n)))
  · simp only [Int.tmod]
    have h1 : 0 < n := Int.ofNat_pos.mp h
    have h2 : Nat.succ m % n < n := Nat.mod_lt _ h1
    exact Int.neg_lt_neg (Int.ofNat_lt.mpr h2)
  · exact absurd h (Int.not_lt.mpr (Int.le_of_lt (Int.negSucc_lt_zero n)))

theorem update_pc_mem {len : Int} {advance : Bool} {pc pc' : Int}
    (h1 : 0 < len) (h2 : len ≤ 2 ^ 31 - 1)
    (h : update_pc len advance pc = some pc') : 0 ≤ pc' ∧ pc' < len := by
  unfold update_pc at h
  have hne : ¬(len = 0) := by omega
  simp only [hne, if_false] at h
  set pc1 := if advance then wrap32 (pc + 1) else pc with hpc1
  have ht1 : Int.tmod pc1 len < len := Int.tmod_lt_of_pos pc1 h1
  have ht2 : -len < Int.tmod pc1 len := tmod_lower pc1 len h1
  have hw : wrap32 (Int.tmod pc1 len) = Int.tmod pc1 len :=
    wrap32_eq_self (by omega) (by omega)
  rw [hw] at h
  by_cases hneg : Int.tmod pc1 len < 0
  · simp only [hneg, if_true] at h
    have hw2 : wrap32 (len + Int.tmod pc1 len) = len + Int.tmod pc1 len :=
      wrap32_eq_self (by omega) (by omega)
    rw [hw2] at h
    cases h
    omega
  · simp only [hneg, if_false] at h
    cases h
    omega

theorem update_pc_advance_eq {len pc : Int} (h1 : 0 ≤ pc) (h2 : pc < len)
    (h3 : len ≤ 2 ^ 31 - 1) :
    update_pc len true pc = some ((pc + 1) % len) := by
  unfold update_pc
  have hne : ¬(len = 0) := by omega
  simp only [hne, if_false, if_true]
  have hw1 : wrap32 (pc + 1) = pc + 1 := wrap32_eq_self (by omega) (by omega)
  rw [hw1]
  have htm : Int.tmod (pc + 1) len = (pc + 1) % len :=
    Int.tmod_eq_emod (by omega) (by omega)
  rw [htm]
  have hm1 : 0 ≤ (pc + 1) % len := Int.emod_nonneg _ (by omega)
  have hm2 : (pc + 1) % len < len := Int.emod_lt_of_pos _ (by omega)
  have hw2 : wrap32 ((pc + 1) % len) = (pc + 1) % len := wrap32_eq_self (by omega) (by omega)
  rw [hw2]
  simp only [Int.not_lt.mpr hm1, if_false]

theorem update_pc_noadvance_eq {len pc : Int} (h1 : 0 ≤ pc) (h2 : pc < len)
    (h3 : len ≤ 2 ^ 31 - 1) :
    update_pc len false pc = some pc := by
  unfold update_pc
  have hne : ¬(len = 0) := by omega
  simp only [hne, if_false, Bool.false_eq_true]
  have htm : Int.tmod pc len = pc % len := Int.tmod_eq_emod (by omega) (by omega)
  have hmod : pc % len = pc := Int.emod_eq_of_lt h1 h2
  have hw : wrap32 pc = pc := wrap32_eq_self (by omega) (by omega)
  simp only [htm, hmod, hw]
  rw [if_neg (by omega : ¬pc < 0)]

end TIS

namespace TIS

/-- A successful CpuPorts read changes only the incoming handles and the last
direction, never the outgoing slots. -/
theorem read_port_outports {ps : CpuPorts} {p : Port} {v : Option Int} {ps' : CpuPorts}
    (h : ps.read_port p = some (v, ps')) : ps'.outports = ps.outports := by
  unfold CpuPorts.read_port at h
  obtain ⟨vlr, hm, hf⟩ := Option.map_eq_some'.mp h
  injection hf with h1 h2
  subst h2
  rfl

/-- get_operand leaves the registers, the pc, the pending write and the
outgoing slots unchanged. -/
theorem get_operand_frame {s : CpuState} {ps : CpuPorts} {op : Operand}
    {v : Option Int} {s' : CpuState} {ps' : CpuPorts}
    (h : get_operand s ps op = some (v, s', ps')) :
    s'.acc = s.acc ∧ s'.bak = s.bak ∧ s'.pc = s.pc ∧
    s'.pending_write = s.pending_write ∧ ps'.outports = ps.outports := by
  cases op with
  | Lit i =>
    simp only [get_operand, Option.some.injEq, Prod.mk.injEq] at h
    obtain ⟨-, h2, h3⟩ := h
    subst h2; subst h3
    exact ⟨rfl, rfl, rfl, rfl, rfl⟩
  | ACC =>
    simp only [get_operand, Option.some.injEq, Prod.mk.injEq] at h
    obtain ⟨-, h2, h3⟩ := h
    subst h2; subst h3
    exact ⟨rfl, rfl, rfl, rfl, rfl⟩
  | port p =>
    simp only [get_operand] at h
    obtain ⟨vp, hm, hf⟩ := Option.map_eq_some'.mp h
    injection hf with h1 h2
    injection h2 with h3 h4
    subst h3; subst h4
    exact ⟨rfl, rfl, rfl, rfl, read_port_outports hm⟩

/-- Cpu::execute reduced to its dispatch when none of the early returns
fire: the executable is non-empty, no write is pending, and the node is not
in WRITE mode. -/
theorem execute_dispatch {c : Cpu}
    (h0 : ¬c.executable.len = 0)
    (h1 : c.state.pending_write = none)
    (h2 : ∀ p, c.state.exec_state ≠ ExecState.WRITE p) :
    c.execute =
      (c.executable.insn_at c.state.pc).bind (fun il =>
        (execInsn il.insn c.state c.ports c.executable).bind (fun asp =>
          (update_pc (wrap32 c.executable.len) asp.1 asp.2.1.pc).map (fun pc =>
            (true, { c with state := { asp.2.1 with pc := pc }, ports := asp.2.2 })))) := by
  unfold Cpu.execute
  rw [if_neg h0, if_neg (by simp [h1])]
  cases hE : c.state.exec_state with
  | EXEC => rfl
  | READ p => rfl
  | WRITE p => exact absurd hE (h2 p)

/-- Cpu::execute on an empty executable: a no-op returning false. -/
theorem execute_empty {c : Cpu} (h0 : c.executable.len = 0) :
    c.execute = some (false, c) := by
  unfold Cpu.execute
  rw [if_pos h0]

/-- Cpu::execute in WRITE mode: returns false without any work. -/
theorem execute_write_mode {c : Cpu} {p : Port}
    (h0 : ¬c.executable.len = 0)
    (h1 : c.state.pending_write = none)
    (h2 : c.state.exec_state = ExecState.WRITE p) :
    c.execute = some (false, c) := by
  unfold Cpu.execute
  rw [if_neg h0, if_neg (by simp [h1]), h2]

end TIS

namespace TIS

/-- Complete case analysis of a non-panicking Cpu::execute call: the result is
false exactly on the two early returns (empty executable, WRITE mode), which
leave the node untouched; every dispatched instruction reports true. -/
theorem execute_some_cases {c : Cpu} {b : Bool} {c' : Cpu} (h : c.execute = some (b, c')) :
    (b = false ∧ c' = c ∧
      (c.executable.len = 0 ∨ ∃ p, c.state.exec_state = ExecState.WRITE p)) ∨
    (b = true ∧ ¬c.executable.len = 0 ∧ ∀ p, c.state.exec_state ≠ ExecState.WRITE p) := by
  by_cases h0 : c.executable.len = 0
  · rw [execute_empty h0] at h
    injection h with hp
    injection hp with hb hc
    exact Or.inl ⟨hb.symm, hc.symm, Or.inl h0⟩
  · by_cases h1 : c.state.pending_write = none
    · by_cases h2 : ∀ p, c.state.exec_state ≠ ExecState.WRITE p
      · rw [execute_dispatch h0 h1 h2] at h
        obtain ⟨il, hX, h⟩ := Option.bind_eq_some.mp h
        obtain ⟨asp, hY, h⟩ := Option.bind_eq_some.mp h
        obtain ⟨pc, hZ, h⟩ := Option.map_eq_some'.mp h
        injection h with hb hc
        exact Or.inr ⟨hb.symm, h0, h2⟩
      · push_neg at h2
        obtain ⟨p, hp⟩ := h2
        rw [execute_write_mode h0 h1 hp] at h
        injection h with hp2
        injection hp2 with hb hc
        exact Or.inl ⟨hb.symm, hc.symm, Or.inr ⟨p, hp⟩⟩
    · have : c.execute = none := by
        unfold Cpu.execute
        rw [if_neg h0, if_pos (by simp [h1])]
      rw [this] at h
      exact Option.noConfusion h

end TIS

namespace TIS

/-- A non-panicking Cpu::execute keeps the executable and keeps the pc inside
[0, len) whenever it started there. -/
theorem execute_pc_inv {c : Cpu} {b : Bool} {c' : Cpu}
    (hsz : (c.executable.len : Int) ≤ 2 ^ 31 - 1)
    (hpc : 0 ≤ c.state.pc ∧ c.state.pc < (c.executable.len : Int))
    (h : c.execute = some (b, c')) :
    (0 ≤ c'.state.pc ∧ c'.state.pc < (c.executable.len : Int)) ∧
      c'.executable = c.executable := by
  by_cases h0 : c.executable.len = 0
  · rw [execute_empty h0] at h
    injection h with hp
    injection hp with hb hc
    subst hc
    exact ⟨hpc, rfl⟩
  · by_cases h1 : c.state.pending_write = none
    · by_cases h2 : ∀ p, c.state.exec_state ≠ ExecState.WRITE p
      · rw [execute_dispatch h0 h1 h2] at h
        obtain ⟨il, hX, h⟩ := Option.bind_eq_some.mp h
        obtain ⟨asp, hY, h⟩ := Option.bind_eq_some.mp h
        obtain ⟨pc, hZ, h⟩ := Option.map_eq_some'.mp h
        injection h with hb hc
        subst hc
        have hw : wrap32 (c.executable.len : Int) = (c.executable.len : Int) :=
          wrap32_eq_self (by omega) (by omega)
        rw [hw] at hZ
        exact ⟨update_pc_mem (by omega) hsz hZ, rfl⟩
      · push_neg at h2
        obtain ⟨p, hp⟩ := h2
        rw [execute_write_mode h0 h1 hp] at h
        injection h with hp2
        injection hp2 with hb hc
        subst hc
        exact ⟨hpc, rfl⟩
    · have hnone : c.execute = none := by
        unfold Cpu.execute
        rw [if_neg h0, if_pos (by simp [h1])]
      rw [hnone] at h
      exact Option.noConfusion h

/-- A non-panicking Cpu::write_cycle keeps the executable and keeps the pc
inside [0, len) whenever it started there. -/
theorem write_cycle_pc_inv {c : Cpu} {c' : Cpu}
    (hsz : (c.executable.len : Int) ≤ 2 ^ 31 - 1)
    (hpc : 0 ≤ c.state.pc ∧ c.state.pc < (c.executable.len : Int))
    (h : c.write_cycle = some c') :
    (0 ≤ c'.state.pc ∧ c'.state.pc < (c.executable.len : Int)) ∧
      c'.executable = c.executable := by
  unfold Cpu.write_cycle at h
  rcases hpend : c.state.pending_write with _ | ⟨port, val⟩
  · simp only [hpend] at h
    cases hE : c.state.exec_state with
    | WRITE p =>
      simp only [hE] at h
      by_cases hfin : (c.ports.write_finished p).1 = true
      · simp only [hfin, if_true] at h
        obtain ⟨pc, hZ, hc⟩ := Option.map_eq_some'.mp h
        subst hc
        have hw : wrap32 (c.executable.len : Int) = (c.executable.len : Int) :=
          wrap32_eq_self (by omega) (by omega)
        rw [hw] at hZ
        exact ⟨update_pc_mem (by omega) hsz hZ, rfl⟩
      · simp only [hfin, if_false] at h
        injection h with hc
        subst hc
        exact ⟨hpc, rfl⟩
    | EXEC =>
      simp only [hE] at h
      injection h with hc
      subst hc
      exact ⟨hpc, rfl⟩
    | READ p =>
      simp only [hE] at h
      injection h with hc
      subst hc
      exact ⟨hpc, rfl⟩
  · simp only [hpend] at h
    obtain ⟨ps, hw, hc⟩ := Option.map_eq_some'.mp h
    subst hc
    exact ⟨hpc, rfl⟩

/-- One externally driven call keeps the executable and the pc range. -/
theorem runCall_pc_inv {c : Cpu} {call : CpuCall} {c' : Cpu}
    (hsz : (c.executable.len : Int) ≤ 2 ^ 31 - 1)
    (hpc : 0 ≤ c.state.pc ∧ c.state.pc < (c.executable.len : Int))
    (h : runCall c call = some c') :
    (0 ≤ c'.state.pc ∧ c'.state.pc < (c.executable.len : Int)) ∧
      c'.executable = c.executable := by
  cases call with
  | execute inports =>
    unfold runCall at h
    obtain ⟨bc, hx, hc⟩ := Option.map_eq_some'.mp h
    subst hc
    exact execute_pc_inv (c := { c with ports := { c.ports with inports := inports } })
      hsz hpc (by rw [← hx])
  | write_cycle outports =>
    unfold runCall at h
    exact write_cycle_pc_inv (c := { c with ports := { c.ports with outports := outports } })
      hsz hpc h

/-- A whole call sequence keeps the executable and the pc range. -/
theorem runCalls_pc_inv {calls : List CpuCall} {c : Cpu} {c' : Cpu}
    (hsz : (c.executable.len : Int) ≤ 2 ^ 31 - 1)
    (hpc : 0 ≤ c.state.pc ∧ c.state.pc < (c.executable.len : Int))
    (h : runCalls c calls = some c') :
    (0 ≤ c'.state.pc ∧ c'.state.pc < (c.executable.len : Int)) ∧
      c'.executable = c.executable := by
  induction calls generalizing c with
  | nil =>
    unfold runCalls at h
    injection h with hc
    subst hc
    exact ⟨hpc, rfl⟩
  | cons call rest ih =>
    unfold runCalls at h
    obtain ⟨c2, h1, h2⟩ := Option.bind_eq_some.mp h
    obtain ⟨hpc2, hexe2⟩ := runCall_pc_inv hsz hpc h1
    have := ih (c := c2) (by rw [hexe2]; exact hsz) (by rw [hexe2]; exact hpc2) h2
    rw [hexe2] at this
    exact this

end TIS

namespace TIS

/-- C1 (amended): Cpu.execute() returns false iff the Executable is empty OR
the node is in WRITE mode awaiting a consumer; every false return leaves the
node unchanged, and an empty Executable always makes execute() a no-op
returning false. -/
theorem C1_execute_false_iff (c : Cpu) :
    (c.executable.len = 0 → c.execute = some (false, c)) ∧
    (∀ b c', c.execute = some (b, c') →
      ((b = false ↔ (c.executable.len = 0 ∨ ∃ p, c.state.exec_state = ExecState.WRITE p)) ∧
       (b = false → c' = c))) := by
  refine ⟨fun h0 => execute_empty h0, fun b c' h => ?_⟩
  rcases execute_some_cases h with ⟨hb, hc, hor⟩ | ⟨hb, hlen, hw⟩
  · subst hb
    exact ⟨⟨fun _ => hor, fun _ => rfl⟩, fun _ => hc⟩
  · subst hb
    refine ⟨⟨fun hf => absurd hf (by simp), fun hor => ?_⟩, fun hf => absurd hf (by simp)⟩
    rcases hor with h0 | ⟨p, hp⟩
    · exact (hlen h0).elim
    · exact (hw p hp).elim

/-- C1 counterexample: the claim "execute() returns false iff the Executable
is empty" fails on the code: running MOV 10 DOWN and committing puts the node
into WRITE mode, and the next execute() returns false although the executable
still holds 2 instructions. -/
theorem C1_counterexample :
    (((cMov.execute).bind (fun bc => bc.2.write_cycle)).bind (fun c => c.execute)).map
      (fun bc => (bc.1, bc.2.executable.len)) = some (false, 2) := by decide

/-- C1 witness: the amended theorem applied to a node with an empty
executable. -/
theorem C1_witness : c1empty.execute = some (false, c1empty) :=
  (C1_execute_false_iff c1empty).1 rfl

/-- C2 (code bug): with the program JRO 0; NOP at pc 0, the spec demands
pc = (0 + 0) mod 2 = 0 (JRO does not auto-advance), but execute() leaves
pc = 1: the JRO arm of Cpu::execute returns advance = true, so update_pc adds
an extra 1 after the offset. -/
theorem C2_jro_auto_advances :
    (c2jro.execute).map (fun bc => bc.2.state.pc) = some 1 ∧
    c2jro.state.pc = 0 ∧ c2jro.executable.len = 2 := by decide

/-- C3 (code bug): Operand::from_str in src/src/instruction.rs rejects the
tokens ANY and LAST with the invalid-operand error (its Port enum has no
Any/Last variants), so parse("MOV 10 ANY") and parse("MOV 50 LAST") fail,
contradicting the spec and the repository's own cpu.rs tests, which parse
these programs successfully and match on instruction::Port::Any/Last. -/
theorem C3_any_last_rejected :
    Operand.from_str "ANY".data = .error "Invalid operand" ∧
    Operand.from_str "LAST".data = .error "Invalid operand" ∧
    parse "MOV 10 ANY".data = some (.error "Invalid operand") ∧
    parse "MOV 50 LAST".data = some (.error "Invalid operand") := by decide

/-- C5: for every non-empty Executable of fewer than 2^31 instructions, every
sequence of externally driven execute()/write_cycle() calls (with arbitrary
port activity, jumps and JRO offsets) keeps the program counter within
[0, len) after each completed call. -/
theorem C5_pc_in_range (e : Executable) (w : CpuWritePorts) (r : CpuReadPorts)
    (calls : List CpuCall) (c' : Cpu)
    (hne : 0 < e.len) (hsz : (e.len : Int) ≤ 2 ^ 31 - 1)
    (hrun : runCalls (Cpu.new e w r) calls = some c') :
    0 ≤ c'.state.pc ∧ c'.state.pc < (e.len : Int) := by
  refine (runCalls_pc_inv hsz ⟨?_, ?_⟩ hrun).1
  · show (0 : Int) ≤ 0
    exact le_refl 0
  · show (0 : Int) < (e.len : Int)
    exact_mod_cast hne

/-- C5 witness: the invariant applied to one execute call on the two-NOP
program. -/
theorem C5_pc_in_range_witness : 0 ≤ c5res.state.pc ∧ c5res.state.pc < (e2nop.len : Int) :=
  C5_pc_in_range e2nop CpuWritePorts.new emptyR [CpuCall.execute emptyR] c5res
    (by decide) (by decide) (by decide)

end TIS

namespace TIS

/-- After a successful operand evaluation the state is either flipped to EXEC
(a port read succeeded) or untouched (literal or ACC operand). -/
theorem get_operand_exec_state {s : CpuState} {ps : CpuPorts} {op : Operand}
    {v : Int} {s' : CpuState} {ps' : CpuPorts}
    (h : get_operand s ps op = some (some v, s', ps')) :
    s'.exec_state = ExecState.EXEC ∨ s' = s := by
  cases op with
  | Lit i =>
    simp only [get_operand, Option.some.injEq, Prod.mk.injEq] at h
    exact Or.inr h.2.1.symm
  | ACC =>
    simp only [get_operand, Option.some.injEq, Prod.mk.injEq] at h
    exact Or.inr h.2.1.symm
  | port p =>
    simp only [get_operand] at h
    obtain ⟨vp, hm, hf⟩ := Option.map_eq_some'.mp h
    injection hf with h1 h2
    injection h2 with h3 h4
    rw [h1] at h3
    subst h3
    exact Or.inl rfl

/-- The ADD dispatch arm with a satisfied operand read. -/
theorem execInsn_ADD {op : Operand} {s : CpuState} {ps : CpuPorts} {e : Executable}
    {v : Int} {s' : CpuState} {ps' : CpuPorts}
    (hop : get_operand s ps op = some (some v, s', ps')) :
    execInsn (Instruction.ADD op) s ps e
      = some (true, { s' with acc := wrap32 (s'.acc + v) }, ps') := by
  rw [execInsn, hop, Option.map_some']

/-- The SUB dispatch arm with a satisfied operand read. -/
theorem execInsn_SUB {op : Operand} {s : CpuState} {ps : CpuPorts} {e : Executable}
    {v : Int} {s' : CpuState} {ps' : CpuPorts}
    (hop : get_operand s ps op = some (some v, s', ps')) :
    execInsn (Instruction.SUB op) s ps e
      = some (true, { s' with acc := wrap32 (s'.acc - v) }, ps') := by
  rw [execInsn, hop, Option.map_some']

/-- The MOV-to-ACC dispatch arm with a satisfied source read. -/
theorem execInsn_MOV_ACC {src : Operand} {s : CpuState} {ps : CpuPorts} {e : Executable}
    {v : Int} {s' : CpuState} {ps' : CpuPorts}
    (hop : get_operand s ps src = some (some v, s', ps')) :
    execInsn (Instruction.MOV src Operand.ACC) s ps e
      = some (true, { s' with acc := v }, ps') := by
  rw [execInsn, hop]
  rfl

/-- The MOV-to-port dispatch arm with a satisfied source read: the write is
queued, the pc is not advanced. -/
theorem execInsn_MOV_port {src : Operand} {p : Port} {s : CpuState} {ps : CpuPorts}
    {e : Executable} {v : Int} {s' : CpuState} {ps' : CpuPorts}
    (hop : get_operand s ps src = some (some v, s', ps')) :
    execInsn (Instruction.MOV src (Operand.port p)) s ps e
      = some (false, { s' with pending_write := some (p, v) }, ps') := by
  rw [execInsn, hop]
  rfl

/-- C4: ADD, SUB and NEG compute on the accumulator in wrapping 32-bit
two's-complement arithmetic and advance the pc (modulo the instruction
count) whenever the operand read is satisfied. -/
theorem C4_arith_wrap (c : Cpu) (v : Int) (op : Operand) (sl : Nat)
    (hsz : (c.executable.len : Int) ≤ 2 ^ 31 - 1)
    (hpend : c.state.pending_write = none)
    (hnw : ∀ p, c.state.exec_state ≠ ExecState.WRITE p)
    (hpc : 0 ≤ c.state.pc ∧ c.state.pc < (c.executable.len : Int)) :
    (∀ s' ps', c.executable.insn_at c.state.pc = some ⟨Instruction.ADD op, sl⟩ →
      get_operand c.state c.ports op = some (some v, s', ps') →
      ∃ c', c.execute = some (true, c') ∧ c'.state.acc = wrap32 (c.state.acc + v) ∧
        c'.state.pc = (c.state.pc + 1) % (c.executable.len : Int)) ∧
    (∀ s' ps', c.executable.insn_at c.state.pc = some ⟨Instruction.SUB op, sl⟩ →
      get_operand c.state c.ports op = some (some v, s', ps') →
      ∃ c', c.execute = some (true, c') ∧ c'.state.acc = wrap32 (c.state.acc - v) ∧
        c'.state.pc = (c.state.pc + 1) % (c.executable.len : Int)) ∧
    (c.executable.insn_at c.state.pc = some ⟨Instruction.NEG, sl⟩ →
      ∃ c', c.execute = some (true, c') ∧ c'.state.acc = wrap32 (-c.state.acc) ∧
        c'.state.pc = (c.state.pc + 1) % (c.executable.len : Int)) := by
  have h0 : ¬c.executable.len = 0 := by omega
  have hwrapl : wrap32 ((c.executable.len : Nat) : Int) = (c.executable.len : Int) :=
    wrap32_eq_self (by omega) (by omega)
  refine ⟨fun s' ps' hinsn hop => ?_, fun s' ps' hinsn hop => ?_, fun hinsn => ?_⟩
  · obtain ⟨hacc, hbak, hpcf, hpw, hout⟩ := get_operand_frame hop
    refine ⟨{ c with
        state := { s' with
          acc := wrap32 (s'.acc + v),
          pc := (c.state.pc + 1) % (c.executable.len : Int) },
        ports := ps' }, ?_, ?_, ?_⟩
    · rw [execute_dispatch h0 hpend hnw, hinsn, Option.some_bind]
      show (execInsn (Instruction.ADD op) c.state c.ports c.executable).bind _ = _
      rw [execInsn_ADD hop, Option.some_bind]
      show (update_pc (wrap32 (c.executable.len : Int)) true s'.pc).map _ = _
      rw [hwrapl, hpcf, update_pc_advance_eq hpc.1 hpc.2 hsz, Option.map_some']
    · show wrap32 (s'.acc + v) = wrap32 (c.state.acc + v)
      rw [hacc]
    · rfl
  · obtain ⟨hacc, hbak, hpcf, hpw, hout⟩ := get_operand_frame hop
    refine ⟨{ c with
        state := { s' with
          acc := wrap32 (s'.acc - v),
          pc := (c.state.pc + 1) % (c.executable.len : Int) },
        ports := ps' }, ?_, ?_, ?_⟩
    · rw [execute_dispatch h0 hpend hnw, hinsn, Option.some_bind]
      show (execInsn (Instruction.SUB op) c.state c.ports c.executable).bind _ = _
      rw [execInsn_SUB hop, Option.some_bind]
      show (update_pc (wrap32 (c.executable.len : Int)) true s'.pc).map _ = _
      rw [hwrapl, hpcf, update_pc_advance_eq hpc.1 hpc.2 hsz, Option.map_some']
    · show wrap32 (s'.acc - v) = wrap32 (c.state.acc - v)
      rw [hacc]
    · rfl
  · refine ⟨{ c with
        state := { c.state with
          acc := wrap32 (-c.state.acc),
          pc := (c.state.pc + 1) % (c.executable.len : Int) } }, ?_, ?_, ?_⟩
    · rw [execute_dispatch h0 hpend hnw, hinsn, Option.some_bind]
      show (execInsn Instruction.NEG c.state c.ports c.executable).bind _ = _
      rw [execInsn, Option.some_bind]
      show (update_pc (wrap32 (c.executable.len : Int)) true c.state.pc).map _ = _
      rw [hwrapl, update_pc_advance_eq hpc.1 hpc.2 hsz, Option.map_some']
    · rfl
    · rfl

end TIS

namespace TIS

/-- C4 witness: ADD 1 on acc = 2^31 - 1 wraps to -2^31 and advances the pc. -/
theorem C4_arith_wrap_witness :
    ∃ c', c4fix.execute = some (true, c') ∧
      c'.state.acc = wrap32 (c4fix.state.acc + 1) ∧
      c'.state.pc = (c4fix.state.pc + 1) % (c4fix.executable.len : Int) :=
  (C4_arith_wrap c4fix 1 (Operand.Lit 1) 0 (by decide) (by decide)
      (fun p h => ExecState.noConfusion h) (by decide)).1
    c4fix.state c4fix.ports (by decide) (by decide)

/-- C7: a MOV whose source read is satisfied: an ACC destination stores the
value and advances the pc inside execute() without entering WRITE mode (and
queues no write); a port destination queues the pending write and changes
neither the accumulator nor the pc during execute(). -/
theorem C7_mov_semantics (c : Cpu) (v : Int) (src : Operand) (sl : Nat)
    (hsz : (c.executable.len : Int) ≤ 2 ^ 31 - 1)
    (hpend : c.state.pending_write = none)
    (hnw : ∀ p, c.state.exec_state ≠ ExecState.WRITE p)
    (hpc : 0 ≤ c.state.pc ∧ c.state.pc < (c.executable.len : Int)) :
    (∀ s' ps', c.executable.insn_at c.state.pc = some ⟨Instruction.MOV src Operand.ACC, sl⟩ →
      get_operand c.state c.ports src = some (some v, s', ps') →
      ∃ c', c.execute = some (true, c') ∧
        c'.state.acc = v ∧
        c'.state.pc = (c.state.pc + 1) % (c.executable.len : Int) ∧
        c'.state.pending_write = none ∧
        ∀ q, c'.state.exec_state ≠ ExecState.WRITE q) ∧
    (∀ p s' ps',
      c.executable.insn_at c.state.pc = some ⟨Instruction.MOV src (Operand.port p), sl⟩ →
      get_operand c.state c.ports src = some (some v, s', ps') →
      ∃ c', c.execute = some (true, c') ∧
        c'.state.pending_write = some (p, v) ∧
        c'.state.acc = c.state.acc ∧
        c'.state.pc = c.state.pc) := by
  have h0 : ¬c.executable.len = 0 := by omega
  have hwrapl : wrap32 ((c.executable.len : Nat) : Int) = (c.executable.len : Int) :=
    wrap32_eq_self (by omega) (by omega)
  refine ⟨fun s' ps' hinsn hop => ?_, fun p s' ps' hinsn hop => ?_⟩
  · obtain ⟨hacc, hbak, hpcf, hpw, hout⟩ := get_operand_frame hop
    refine ⟨{ c with
        state := { s' with
          acc := v,
          pc := (c.state.pc + 1) % (c.executable.len : Int) },
        ports := ps' }, ?_, rfl, rfl, ?_, ?_⟩
    · rw [execute_dispatch h0 hpend hnw, hinsn, Option.some_bind]
      show (execInsn (Instruction.MOV src Operand.ACC) c.state c.ports c.executable).bind _ = _
      rw [execInsn_MOV_ACC hop, Option.some_bind]
      show (update_pc (wrap32 (c.executable.len : Int)) true s'.pc).map _ = _
      rw [hwrapl, hpcf, update_pc_advance_eq hpc.1 hpc.2 hsz, Option.map_some']
    · show s'.pending_write = none
      rw [hpw, hpend]
    · show ∀ q, s'.exec_state ≠ ExecState.WRITE q
      rcases get_operand_exec_state hop with hE | hE
      · rw [hE]
        intro q h
        exact ExecState.noConfusion h
      · rw [hE]
        exact hnw
  · obtain ⟨hacc, hbak, hpcf, hpw, hout⟩ := get_operand_frame hop
    refine ⟨{ c with
        state := { s' with
          pending_write := some (p, v),
          pc := c.state.pc },
        ports := ps' }, ?_, rfl, ?_, rfl⟩
    · rw [execute_dispatch h0 hpend hnw, hinsn, Option.some_bind]
      show (execInsn (Instruction.MOV src (Operand.port p)) c.state c.ports c.executable).bind _ = _
      rw [execInsn_MOV_port hop, Option.some_bind]
      show (update_pc (wrap32 (c.executable.len : Int)) false s'.pc).map _ = _
      rw [hwrapl, hpcf, update_pc_noadvance_eq hpc.1 hpc.2 hsz, Option.map_some']
    · show s'.acc = c.state.acc
      exact hacc

/-- C7 witness: the two MOV behaviors on concrete one-instruction programs. -/
theorem C7_mov_semantics_witness :
    (∃ c', c7acc.execute = some (true, c') ∧
      c'.state.acc = 7 ∧
      c'.state.pc = (c7acc.state.pc + 1) % (c7acc.executable.len : Int) ∧
      c'.state.pending_write = none ∧
      ∀ q, c'.state.exec_state ≠ ExecState.WRITE q) ∧
    (∃ c', c7port.execute = some (true, c') ∧
      c'.state.pending_write = some (Port.Down, 7) ∧
      c'.state.acc = c7port.state.acc ∧
      c'.state.pc = c7port.state.pc) :=
  ⟨(C7_mov_semantics c7acc 7 (Operand.Lit 7) 0 (by decide) (by decide)
      (fun p h => ExecState.noConfusion h) (by decide)).1
    c7acc.state c7acc.ports (by decide) (by decide),
   (C7_mov_semantics c7port 7 (Operand.Lit 7) 0 (by decide) (by decide)
      (fun p h => ExecState.noConfusion h) (by decide)).2
    Port.Down c7port.state c7port.ports (by decide) (by decide)⟩

end TIS

namespace TIS

/-- A direction whose write-side slot can be selected is cardinal. -/
theorem get_port_isSome_cardinal {w : CpuWritePorts} {t : Port} {x : Option Int}
    (h : w.get_port t = some x) : t.isCardinal = true := by
  cases t <;> simp_all [CpuWritePorts.get_port, Port.isCardinal]

/-- Writing into an empty cardinal slot succeeds and stores the value there. -/
theorem write_port_card {w : CpuWritePorts} {t : Port} {v : Int}
    (h : w.get_port t = some none) :
    w.write_port t v = some (true, w.setSlot t (some v)) := by
  cases t <;> simp_all [CpuWritePorts.write_port, CpuWritePorts.get_port, CpuWritePorts.setSlot]

/-- Reading back the cardinal slot just written. -/
theorem get_port_setSlot_self {w : CpuWritePorts} {t : Port} {v : Option Int}
    (ht : t.isCardinal = true) : (w.setSlot t v).get_port t = some v := by
  cases t <;> simp_all [CpuWritePorts.get_port, CpuWritePorts.setSlot, Port.isCardinal]

/-- Every dispatch arm of execInsn leaves the outgoing slots untouched:
execution only reads ports; writes happen in write_cycle. -/
theorem execInsn_outports {insn : Instruction} {s : CpuState} {ps : CpuPorts} {e : Executable}
    {adv : Bool} {s2 : CpuState} {ps2 : CpuPorts}
    (h : execInsn insn s ps e = some (adv, s2, ps2)) : ps2.outports = ps.outports := by
  cases insn with
  | NOP =>
    simp only [execInsn, Option.some.injEq, Prod.mk.injEq] at h
    rw [← h.2.2]
  | SWP =>
    simp only [execInsn, Option.some.injEq, Prod.mk.injEq] at h
    rw [← h.2.2]
  | SAV =>
    simp only [execInsn, Option.some.injEq, Prod.mk.injEq] at h
    rw [← h.2.2]
  | NEG =>
    simp only [execInsn, Option.some.injEq, Prod.mk.injEq] at h
    rw [← h.2.2]
  | MOV src dst =>
    simp only [execInsn] at h
    obtain ⟨vsp, hop, h⟩ := Option.bind_eq_some.mp h
    have hout : vsp.2.2.outports = ps.outports := (get_operand_frame hop).2.2.2.2
    rcases hv : vsp.1 with _ | i
    · simp only [hv] at h
      simp only [Option.some.injEq, Prod.mk.injEq] at h
      rw [← h.2.2]
      exact hout
    · simp only [hv] at h
      cases dst with
      | Lit j => exact Option.noConfusion h
      | ACC =>
        simp only [Option.some.injEq, Prod.mk.injEq] at h
        rw [← h.2.2]
        exact hout
      | port q =>
        simp only [Option.some.injEq, Prod.mk.injEq] at h
        rw [← h.2.2]
        exact hout
  | ADD op =>
    simp only [execInsn] at h
    obtain ⟨vsp, hop, h⟩ := Option.map_eq_some'.mp h
    have hout : vsp.2.2.outports = ps.outports := (get_operand_frame hop).2.2.2.2
    rcases hv : vsp.1 with _ | i <;> simp only [hv] at h <;>
      · injection h with h1 h2
        injection h2 with h3 h4
        rw [← h4]
        exact hout
  | SUB op =>
    simp only [execInsn] at h
    obtain ⟨vsp, hop, h⟩ := Option.map_eq_some'.mp h
    have hout : vsp.2.2.outports = ps.outports := (get_operand_frame hop).2.2.2.2
    rcases hv : vsp.1 with _ | i <;> simp only [hv] at h <;>
      · injection h with h1 h2
        injection h2 with h3 h4
        rw [← h4]
        exact hout
  | JRO dst =>
    simp only [execInsn] at h
    obtain ⟨vsp, hop, h⟩ := Option.map_eq_some'.mp h
    have hout : vsp.2.2.outports = ps.outports := (get_operand_frame hop).2.2.2.2
    rcases hv : vsp.1 with _ | i <;> simp only [hv] at h <;>
      · injection h with h1 h2
        injection h2 with h3 h4
        rw [← h4]
        exact hout
  | J cond dst =>
    simp only [execInsn] at h
    split at h
    · obtain ⟨idx, hl, hf⟩ := Option.map_eq_some'.mp h
      injection hf with h1 h2
      injection h2 with h3 h4
      rw [← h4]
    · simp only [Option.some.injEq, Prod.mk.injEq] at h
      rw [← h.2.2]

/-- A non-panicking Cpu::execute never changes the outgoing slots. -/
theorem execute_outports {c : Cpu} {b : Bool} {c' : Cpu} (h : c.execute = some (b, c')) :
    c'.ports.outports = c.ports.outports := by
  by_cases h0 : c.executable.len = 0
  · rw [execute_empty h0] at h
    injection h with hp
    injection hp with hb hc
    subst hc
    rfl
  · by_cases h1 : c.state.pending_write = none
    · by_cases h2 : ∀ p, c.state.exec_state ≠ ExecState.WRITE p
      · rw [execute_dispatch h0 h1 h2] at h
        obtain ⟨il, hX, h⟩ := Option.bind_eq_some.mp h
        obtain ⟨asp, hY, h⟩ := Option.bind_eq_some.mp h
        obtain ⟨pc, hZ, h⟩ := Option.map_eq_some'.mp h
        have hc2 : c' = { c with
            state := { asp.2.1 with pc := pc }, ports := asp.2.2 } := (congrArg Prod.snd h).symm
        rw [hc2]
        show asp.2.2.outports = c.ports.outports
        exact execInsn_outports hY
      · push_neg at h2
        obtain ⟨p, hp⟩ := h2
        rw [execute_write_mode h0 h1 hp] at h
        injection h with hp2
        injection hp2 with hb hc
        subst hc
        rfl
    · have hnone : c.execute = none := by
        unfold Cpu.execute
        rw [if_neg h0, if_pos (by simp [h1])]
      rw [hnone] at h
      exact Option.noConfusion h

/-- The finished flag reported by CpuPorts::write_finished is exactly the
write_finished of the outgoing slots. -/
theorem write_finished_fst (ps : CpuPorts) (p : Port) :
    (ps.write_finished p).1 = ps.outports.write_finished := by
  simp only [CpuPorts.write_finished]
  split <;> rfl

end TIS

namespace TIS

/-- C8: the two-phase commit discipline of a port write.  (a) execute() never
changes the write-side slots, so a value produced by a port-destination MOV is
not readable before write_cycle().  (b) write_cycle() deposits a pending
(port, value) into the resolved slot (all four slots for ANY), clears the
pending write, keeps the pc and sets mode WRITE(port).  (c) when the mode is
WRITE(p), no write is pending and the slots have been drained, write_cycle()
sets mode EXEC and advances the pc by 1 with wrap. -/
theorem C8_two_phase_commit (c : Cpu) (v : Int) (p : Port)
    (hsz : (c.executable.len : Int) ≤ 2 ^ 31 - 1)
    (hpc : 0 ≤ c.state.pc ∧ c.state.pc < (c.executable.len : Int)) :
    (∀ b c', c.execute = some (b, c') → c'.ports.outports = c.ports.outports) ∧
    (∀ t, c.state.pending_write = some (p, v) →
      (match p with | Port.Last => c.ports.last | _ => p) = t →
      ((c.ports.outports.get_port t = some none →
        ∃ c', c.write_cycle = some c' ∧
          c'.ports.outports.get_port t = some (some v) ∧
          c'.state.exec_state = ExecState.WRITE p ∧
          c'.state.pending_write = none ∧
          c'.state.pc = c.state.pc) ∧
      (p = Port.Any →
        ∃ c', c.write_cycle = some c' ∧
          c'.ports.outports.up = some v ∧ c'.ports.outports.down = some v ∧
          c'.ports.outports.left = some v ∧ c'.ports.outports.right = some v ∧
          c'.state.exec_state = ExecState.WRITE Port.Any ∧
          c'.state.pending_write = none ∧
          c'.state.pc = c.state.pc))) ∧
    (c.state.pending_write = none → c.state.exec_state = ExecState.WRITE p →
      c.ports.outports.write_finished = true →
      ∃ c', c.write_cycle = some c' ∧
        c'.state.exec_state = ExecState.EXEC ∧
        c'.state.pc = (c.state.pc + 1) % (c.executable.len : Int)) := by
  have hwrapl : wrap32 ((c.executable.len : Nat) : Int) = (c.executable.len : Int) :=
    wrap32_eq_self (by omega) (by omega)
  refine ⟨fun b c' h => execute_outports h, fun t hpend2 ht => ⟨fun hslot => ?_, fun hany => ?_⟩,
    fun hpend2 hE hfin => ?_⟩
  · have hcard : t.isCardinal = true := get_port_isSome_cardinal hslot
    refine ⟨{ c with
        state := { c.state with
          pending_write := none,
          exec_state := ExecState.WRITE p },
        ports := { c.ports with
          outports := c.ports.outports.setSlot t (some v) } }, ?_, ?_, rfl, rfl, rfl⟩
    · unfold Cpu.write_cycle
      simp only [hpend2]
      unfold CpuPorts.write_port
      rw [ht, write_port_card hslot, Option.map_some', Option.map_some']
    · show (c.ports.outports.setSlot t (some v)).get_port t = some (some v)
      exact get_port_setSlot_self hcard
  · subst hany
    refine ⟨{ c with
        state := { c.state with
          pending_write := none,
          exec_state := ExecState.WRITE Port.Any },
        ports := { c.ports with
          outports := c.ports.outports.set_all (some v) } }, ?_, rfl, rfl, rfl, rfl, rfl, rfl, rfl⟩
    unfold Cpu.write_cycle
    simp only [hpend2]
    unfold CpuPorts.write_port
    rw [CpuWritePorts.write_port, Option.map_some', Option.map_some']
  · have hfin2 : (c.ports.write_finished p).1 = true := by
      rw [write_finished_fst]
      exact hfin
    refine ⟨{ c with
        state := { c.state with
          exec_state := ExecState.EXEC,
          pc := (c.state.pc + 1) % (c.executable.len : Int) },
        ports := (c.ports.write_finished p).2 }, ?_, rfl, rfl⟩
    unfold Cpu.write_cycle
    simp only [hpend2, hE]
    rw [if_pos hfin2, hwrapl, update_pc_advance_eq hpc.1 hpc.2 hsz, Option.map_some']

/-- C8 witness: the MOV 10 DOWN program: the slot is untouched by execute(),
deposited by the first write_cycle(), and after the consumer drains it the
next write_cycle() returns to EXEC and advances the pc. -/
theorem C8_two_phase_commit_witness :
    (c8mid.ports.outports = cMov.ports.outports) ∧
    (∃ c', c8mid.write_cycle = some c' ∧
      c'.ports.outports.get_port Port.Down = some (some 10) ∧
      c'.state.exec_state = ExecState.WRITE Port.Down ∧
      c'.state.pending_write = none ∧
      c'.state.pc = c8mid.state.pc) ∧
    (∃ c', c8d.write_cycle = some c' ∧
      c'.state.exec_state = ExecState.EXEC ∧
      c'.state.pc = (c8d.state.pc + 1) % (c8d.executable.len : Int)) :=
  ⟨(C8_two_phase_commit cMov 10 Port.Down (by decide) (by decide)).1 true c8mid (by decide),
   ((C8_two_phase_commit c8mid 10 Port.Down (by decide) (by decide)).2.1 Port.Down
      (by decide) (by decide)).1 (by decide),
   (C8_two_phase_commit c8d 10 Port.Down (by decide) (by decide)).2.2
      (by decide) (by decide) (by decide)⟩

end TIS

namespace TIS

/-- C9: the consumer-side read_port: ANY probes UP, DOWN, LEFT, RIGHT in that
fixed order, returns the first full slot (consuming it) and records that
direction as last; a failed ANY read changes nothing; a cardinal read never
touches last; a LAST read reads the remembered direction's slot. -/
theorem C9_any_last_read (r : CpuReadPorts) (last : Port) (v : Int) :
    (r.up = some v →
      r.read_port Port.Any last = some (some v, Port.Up, { r with up := none })) ∧
    (r.up = none → r.down = some v →
      r.read_port Port.Any last = some (some v, Port.Down, { r with down := none })) ∧
    (r.up = none → r.down = none → r.left = some v →
      r.read_port Port.Any last = some (some v, Port.Left, { r with left := none })) ∧
    (r.up = none → r.down = none → r.left = none → r.right = some v →
      r.read_port Port.Any last = some (some v, Port.Right, { r with right := none })) ∧
    (r.up = none → r.down = none → r.left = none → r.right = none →
      r.read_port Port.Any last = some (none, last, r)) ∧
    (∀ d, d.isCardinal = true → ∃ w r2, r.read_port d last = some (w, last, r2)) ∧
    (last = Port.Up →
      r.read_port Port.Last last = some (r.up, Port.Up, { r with up := none })) ∧
    (last = Port.Down →
      r.read_port Port.Last last = some (r.down, Port.Down, { r with down := none })) ∧
    (last = Port.Left →
      r.read_port Port.Last last = some (r.left, Port.Left, { r with left := none })) ∧
    (last = Port.Right →
      r.read_port Port.Last last = some (r.right, Port.Right, { r with right := none })) := by
  refine ⟨fun h1 => ?_, fun h1 h2 => ?_, fun h1 h2 h3 => ?_, fun h1 h2 h3 h4 => ?_,
    fun h1 h2 h3 h4 => ?_, fun d hd => ?_, fun hl => ?_, fun hl => ?_, fun hl => ?_,
    fun hl => ?_⟩
  · simp [CpuReadPorts.read_port, h1]
  · simp [CpuReadPorts.read_port, h1, h2]
  · simp [CpuReadPorts.read_port, h1, h2, h3]
  · simp [CpuReadPorts.read_port, h1, h2, h3, h4]
  · simp [CpuReadPorts.read_port, h1, h2, h3, h4]
  · cases d with
    | Up => exact ⟨r.up, { r with up := none }, rfl⟩
    | Down => exact ⟨r.down, { r with down := none }, rfl⟩
    | Left => exact ⟨r.left, { r with left := none }, rfl⟩
    | Right => exact ⟨r.right, { r with right := none }, rfl⟩
    | Any => exact absurd hd (by decide)
    | Last => exact absurd hd (by decide)
  · subst hl; rfl
  · subst hl; rfl
  · subst hl; rfl
  · subst hl; rfl

/-- C9 witness: with UP empty and DOWN full, an ANY read returns DOWN's value,
sets last to DOWN and consumes only that slot; an exhausted ANY read leaves
everything unchanged; LAST reads the remembered direction. -/
theorem C9_any_last_read_witness :
    CpuReadPorts.read_port ⟨none, some 5, none, some 7⟩ Port.Any Port.Up
      = some (some 5, Port.Down, ⟨none, none, none, some 7⟩) ∧
    CpuReadPorts.read_port ⟨none, none, none, none⟩ Port.Any Port.Left
      = some (none, Port.Left, ⟨none, none, none, none⟩) ∧
    CpuReadPorts.read_port ⟨none, some 5, none, some 7⟩ Port.Last Port.Right
      = some (some 7, Port.Right, ⟨none, some 5, none, none⟩) :=
  ⟨(C9_any_last_read ⟨none, some 5, none, some 7⟩ Port.Up 5).2.1 rfl rfl,
   (C9_any_last_read ⟨none, none, none, none⟩ Port.Left 0).2.2.2.2.1 rfl rfl rfl rfl,
   (C9_any_last_read ⟨none, some 5, none, some 7⟩ Port.Right 0).2.2.2.2.2.2.2.2.2 rfl⟩

/-- C10: reading a full write-side slot returns its value and empties all
four slots (so write_any_finished() reports true afterwards), whether the
value was written to that slot individually or broadcast via ANY; reading an
empty slot leaves the slots exactly as they were. -/
theorem C10_read_clears_all (w : CpuWritePorts) (d : Port) (v : Int)
    (hd : d.isCardinal = true) :
    (w.get_port d = some (some v) →
      ∃ w', w.read d = some (some v, w') ∧
        w'.up = none ∧ w'.down = none ∧ w'.left = none ∧ w'.right = none ∧
        w'.write_any_finished = true) ∧
    (w.get_port d = some none → w.read d = some (none, w)) := by
  cases d with
  | Any => exact absurd hd (by decide)
  | Last => exact absurd hd (by decide)
  | Up =>
    constructor
    · intro h
      simp only [CpuWritePorts.get_port, Option.some.injEq] at h
      refine ⟨{ w.set_all none with last := Port.Up }, ?_, rfl, rfl, rfl, rfl, rfl⟩
      simp [CpuWritePorts.read, CpuWritePorts.get_port, h]
    · intro h
      simp only [CpuWritePorts.get_port, Option.some.injEq] at h
      simp [CpuWritePorts.read, CpuWritePorts.get_port, h]
  | Down =>
    constructor
    · intro h
      simp only [CpuWritePorts.get_port, Option.some.injEq] at h
      refine ⟨{ w.set_all none with last := Port.Down }, ?_, rfl, rfl, rfl, rfl, rfl⟩
      simp [CpuWritePorts.read, CpuWritePorts.get_port, h]
    · intro h
      simp only [CpuWritePorts.get_port, Option.some.injEq] at h
      simp [CpuWritePorts.read, CpuWritePorts.get_port, h]
  | Left =>
    constructor
    · intro h
      simp only [CpuWritePorts.get_port, Option.some.injEq] at h
      refine ⟨{ w.set_all none with last := Port.Left }, ?_, rfl, rfl, rfl, rfl, rfl⟩
      simp [CpuWritePorts.read, CpuWritePorts.get_port, h]
    · intro h
      simp only [CpuWritePorts.get_port, Option.some.injEq] at h
      simp [CpuWritePorts.read, CpuWritePorts.get_port, h]
  | Right =>
    constructor
    · intro h
      simp only [CpuWritePorts.get_port, Option.some.injEq] at h
      refine ⟨{ w.set_all none with last := Port.Right }, ?_, rfl, rfl, rfl, rfl, rfl⟩
      simp [CpuWritePorts.read, CpuWritePorts.get_port, h]
    · intro h
      simp only [CpuWritePorts.get_port, Option.some.injEq] at h
      simp [CpuWritePorts.read, CpuWritePorts.get_port, h]

/-- C10 witness: a slot written individually still clears all four slots on a
successful read, and an empty read is a no-op. -/
theorem C10_read_clears_all_witness :
    (∃ w', (CpuWritePorts.read ⟨some 3, none, none, none, Port.Up⟩ Port.Up)
        = some (some 3, w') ∧
      w'.up = none ∧ w'.down = none ∧ w'.left = none ∧ w'.right = none ∧
      w'.write_any_finished = true) ∧
    CpuWritePorts.read ⟨some 3, none, none, none, Port.Up⟩ Port.Down
      = some (none, ⟨some 3, none, none, none, Port.Up⟩) :=
  ⟨(C10_read_clears_all ⟨some 3, none, none, none, Port.Up⟩ Port.Up 3 rfl).1 rfl,
   (C10_read_clears_all ⟨some 3, none, none, none, Port.Up⟩ Port.Down 3 rfl).2 rfl⟩

end TIS

namespace TIS

/-- resolveLabel finds exactly the first instruction at or after the label's
source line: the returned index points at such an instruction and everything
before it is strictly earlier in the source. -/
theorem resolveLabel_some : ∀ {lines : List InstructionLine} {lineno i : Nat},
    resolveLabel lines lineno = some i →
    ∃ il, lines.get? i = some il ∧ lineno ≤ il.srcline ∧
      ∀ j, j < i → ∃ il2, lines.get? j = some il2 ∧ il2.srcline < lineno := by
  intro lines
  induction lines with
  | nil => intro lineno i h; exact Option.noConfusion h
  | cons il rest ih =>
    intro lineno i h
    unfold resolveLabel at h
    by_cases hle : lineno ≤ il.srcline
    · rw [if_pos hle] at h
      injection h with hi
      subst hi
      exact ⟨il, rfl, hle, fun j hj => absurd hj (by omega)⟩
    · rw [if_neg hle] at h
      obtain ⟨i2, hr, hi⟩ := Option.map_eq_some'.mp h
      subst hi
      obtain ⟨il2, hg, hle2, hmin⟩ := ih hr
      refine ⟨il2, by simpa using hg, hle2, fun j hj => ?_⟩
      cases j with
      | zero => exact ⟨il, rfl, by omega⟩
      | succ j2 =>
        obtain ⟨il3, hg3, hlt3⟩ := hmin j2 (by omega)
        exact ⟨il3, by simpa using hg3, hlt3⟩

/-- resolveLabel fails (the parse assert fires) exactly when every emitted
instruction lies strictly before the label's source line. -/
theorem resolveLabel_none_iff : ∀ (lines : List InstructionLine) (lineno : Nat),
    resolveLabel lines lineno = none ↔ ∀ il ∈ lines, il.srcline < lineno := by
  intro lines
  induction lines with
  | nil => intro lineno; simp [resolveLabel]
  | cons il rest ih =>
    intro lineno
    unfold resolveLabel
    by_cases hle : lineno ≤ il.srcline
    · rw [if_pos hle]
      constructor
      · intro h; exact Option.noConfusion h
      · intro h; exact absurd (h il (by simp)) (by omega)
    · rw [if_neg hle]
      simp only [Option.map_eq_none']
      rw [ih lineno]
      constructor
      · intro h il2 hmem
        rcases List.mem_cons.mp hmem with h2 | h2
        · subst h2; omega
        · exact h il2 h2
      · intro h il2 hmem
        exact h il2 (List.mem_cons_of_mem _ hmem)

/-- If some element maps to none, the whole mapM is none. -/
theorem mapM_eq_none_of_mem {α β : Type} {f : α → Option β} :
    ∀ {l : List α} {x : α}, x ∈ l → f x = none → l.mapM f = none := by
  intro l
  induction l with
  | nil => intro x hx; exact absurd hx (List.not_mem_nil x)
  | cons a as ih =>
    intro x hx hf
    rw [List.mapM_cons]
    rcases List.mem_cons.mp hx with h2 | h2
    · subst h2
      rw [hf]
      rfl
    · cases ha : f a with
      | none => rfl
      | some b =>
        rw [ih h2 hf]
        rfl

/-- Every element of a successful mapM output comes from some input element. -/
theorem mapM_mem_exists {α β : Type} {f : α → Option β} :
    ∀ {l : List α} {l2 : List β}, l.mapM f = some l2 →
      ∀ y ∈ l2, ∃ x ∈ l, f x = some y := by
  intro l
  induction l with
  | nil =>
    intro l2 h y hy
    injection h with h2
    subst h2
    exact absurd hy (List.not_mem_nil y)
  | cons a as ih =>
    intro l2 h y hy
    rw [List.mapM_cons] at h
    cases ha : f a with
    | none => rw [ha] at h; exact Option.noConfusion h
    | some b =>
      rw [ha] at h
      cases has : as.mapM f with
      | none => rw [has] at h; exact Option.noConfusion h
      | some bs =>
        rw [has] at h
        injection h with h2
        subst h2
        rcases List.mem_cons.mp hy with h3 | h3
        · subst h3; exact ⟨a, by simp, ha⟩
        · obtain ⟨x, hx, hfx⟩ := ih has y h3
          exact ⟨x, List.mem_cons_of_mem _ hx, hfx⟩

end TIS

namespace TIS

/-- C6 counterexample: the claim says parse returns an error (rather than
succeeding or aborting) exactly when a label with no following instruction is
referenced by a jump.  On the referenced trailing label FOO the code instead
aborts: the resolution pass finds no instruction at or after FOO's line and
its assert fires (modelled as none), so parse neither errs nor succeeds. -/
theorem C6_counterexample : parse "JMP FOO\nFOO:".data = none := by decide

/-- C6 (amended): each recognized label is bound to the index of the first
instruction at or after the label's source line (everything before that index
is strictly earlier in source); when a label has no instruction at or after
its line, parse aborts via the assert (regardless of whether the label is
referenced), rather than returning an error; and a successful parse's label
map is exactly the resolution of the recorded (label, source-line) pairs. -/
theorem C6_label_binding :
    (∀ (lines : List InstructionLine) (lineno i : Nat),
      resolveLabel lines lineno = some i →
      ∃ il, lines.get? i = some il ∧ lineno ≤ il.srcline ∧
        ∀ j, j < i → ∃ il2, lines.get? j = some il2 ∧ il2.srcline < lineno) ∧
    (∀ (lines : List InstructionLine) (lineno : Nat),
      resolveLabel lines lineno = none ↔ ∀ il ∈ lines, il.srcline < lineno) ∧
    (∀ (ls : List Line) (l : Label) (n : Nat),
      (l, n) ∈ (rawPairs ls).2 → resolveLabel (rawPairs ls).1 n = none →
      buildExecutable ls = none) ∧
    (∀ (ls : List Line) (e : Executable),
      buildExecutable ls = some (Except.ok e) →
      e.lines = (rawPairs ls).1 ∧
      ∀ l i, (l, i) ∈ e.labels →
        ∃ n, (l, n) ∈ (rawPairs ls).2 ∧ resolveLabel (rawPairs ls).1 n = some i) := by
  refine ⟨fun lines lineno i h => resolveLabel_some h, resolveLabel_none_iff, ?_, ?_⟩
  · intro ls l n hmem hres
    simp only [buildExecutable]
    split
    · rw [mapM_eq_none_of_mem hmem (by simp [hres])]
    · rfl
  · intro ls e h
    simp only [buildExecutable] at h
    split at h
    · split at h
      · exact Option.noConfusion h
      · rename_i labels hm
        split at h
        · injection h with h2
          exact Except.noConfusion h2
        · injection h with h2
          injection h2 with h3
          subst h3
          refine ⟨rfl, fun l i hli => ?_⟩
          obtain ⟨kv, hkv, hf⟩ := mapM_mem_exists hm (l, i) hli
          obtain ⟨i2, hres, hpair⟩ := Option.map_eq_some'.mp hf
          injection hpair with hk1 hi2
          refine ⟨kv.2, ?_, ?_⟩
          · rw [← hk1]
            simpa using hkv
          · rw [hi2] at hres
            exact hres
    · exact Option.noConfusion h

end TIS

namespace TIS

/-- C6 witness: the amended theorem applied to a one-instruction list (the
label binds to index 0) and to a label-only program (parse aborts). -/
theorem C6_label_binding_witness :
    (∃ il, [(⟨Instruction.NOP, 1⟩ : InstructionLine)].get? 0 = some il ∧
      0 ≤ il.srcline ∧
      ∀ j, j < 0 → ∃ il2, [(⟨Instruction.NOP, 1⟩ : InstructionLine)].get? j = some il2 ∧
        il2.srcline < 0) ∧
    buildExecutable [{ label := some "FOO".data, insn := none }] = none :=
  ⟨C6_label_binding.1 [⟨Instruction.NOP, 1⟩] 0 0 (by decide),
   C6_label_binding.2.2.1 [{ label := some "FOO".data, insn := none }] "FOO".data 0
     (by decide) (by decide)⟩

end TIS
